import Mathlib

/-!
Verification of `review_pr.py`, a single-shot pull-request review script.

Python strings are modelled as `List Char` (one entry per Unicode scalar,
matching Python's code-point view of `str`).  The script's pure core - the
line-oriented diff filter in `get_pr_diff`, the prompt construction in
`get_ai_review`, the comment template in `post_review_comment`, and the
environment validation in `get_env_var` - is embedded directly; the three
network calls are modelled by an oracle `World` supplying each response, and
`mainRun` replays `main`'s control flow over that oracle, recording which
network calls were issued and how the process ended.
-/

namespace ReviewPr

/-- Python `s.startswith(pat)` on code-point lists. -/
def listStartsWith : List Char → List Char → Bool
  | _, [] => true
  | [], _ :: _ => false
  | c :: cs, p :: ps => c == p && listStartsWith cs ps

/-- Python `pat in s` (substring containment) on code-point lists. -/
def containsSub (pat : List Char) : List Char → Bool
  | [] => listStartsWith [] pat
  | c :: cs => listStartsWith (c :: cs) pat || containsSub pat cs

/-- Python `s.split('\n')`: always at least one piece, empty pieces kept. -/
def splitOnNl : List Char → List (List Char)
  | [] => [[]]
  | c :: cs =>
    if c = '\n' then [] :: splitOnNl cs
    else
      match splitOnNl cs with
      | [] => [[c]]
      | l :: ls => (c :: l) :: ls

/-- Python `'\n'.join(lines)`. -/
def joinNl : List (List Char) → List Char
  | [] => []
  | [l] => l
  | l :: l2 :: ls => l ++ '\n' :: joinNl (l2 :: ls)

/-- The ASCII whitespace removed by Python `str.strip()` with no argument. -/
def isSpaceChar (c : Char) : Bool :=
  c == ' ' || c == '\t' || c == '\n' || c == '\r' || c == '\x0b' || c == '\x0c'

/-- Python `s.strip()`: leading and trailing whitespace removed. -/
def pyStrip (s : List Char) : List Char :=
  ((s.dropWhile isSpaceChar).reverse.dropWhile isSpaceChar).reverse

/-- The text up to (not including) the first newline. -/
def firstLine (s : List Char) : List Char :=
  s.takeWhile (fun c => !(c == '\n'))

/-- Python `s.endswith(pat)`. -/
def listEndsWith (s pat : List Char) : Bool :=
  listStartsWith s.reverse pat.reverse

/-- The literal `'diff --git'` tested by `line.startswith('diff --git')`. -/
def diffGitMarker : List Char := "diff --git".data

/-- The literal `'.py'` tested by `'.py' in line`. -/
def pyMarker : List Char := ".py".data

/-- A line beginning a new file section: `line.startswith('diff --git')`. -/
def isHeaderLine (l : List Char) : Bool :=
  listStartsWith l diffGitMarker

/-- One step of the filter's `include` flag: on a header line the flag is
reset to `'.py' in line`, otherwise it is unchanged. -/
def stepInc (l : List Char) (inc : Bool) : Bool :=
  if isHeaderLine l then containsSub pyMarker l else inc

/-- The filtering loop of `get_pr_diff`: each line first updates the
`include` flag via `stepInc`, then is appended exactly when the flag holds. -/
def filterGo : List (List Char) → Bool → List (List Char)
  | [], _ => []
  | l :: ls, inc =>
    if stepInc l inc then l :: filterGo ls (stepInc l inc)
    else filterGo ls (stepInc l inc)

/-- The `include` flag after the loop has consumed `lines`. -/
def incAfter : List (List Char) → Bool → Bool
  | [], inc => inc
  | l :: ls, inc => incAfter ls (stepInc l inc)

/-- The pure tail of `get_pr_diff`: split the fetched diff on newlines, run
the filtering loop with the flag initially false, and rejoin with newlines. -/
def get_pr_diff_filter (diff : List Char) : List Char :=
  joinNl (filterGo (splitOnNl diff) false)

/-- The module-level `SYSTEM_PROMPT` string. -/
def SYSTEM_PROMPT : List Char :=
  "You are a senior Python engineer and an expert code reviewer. You follow PEP 8 style guidelines and Python best practices.".data

/-- The user prompt template of `get_ai_review`, up to the code point written
here as `Char.ofNat 39` (the straight apostrophe in the word before
`s readiness`).  ` ` is the no-break space of the source; `’` its
typographic apostrophes; several template lines end in two spaces, kept
before the `\n` escapes. -/
def promptPartA : List Char :=
  ("When provided with a pull request diff, you will perform a thorough code review focusing on:  \n"
    ++ "- Code readability and maintainability  \n"
    ++ "- Performance and efficiency  \n"
    ++ "- Security and potential vulnerabilities  \n"
    ++ "- Style compliance (PEP 8 and project conventions)  \n"
    ++ "- Correctness and logic errors  \n"
    ++ "\n"
    ++ "Provide feedback in a structured, clear manner. For each issue you find, identify the problematic code (with line numbers or context), explain why it might be an issue, and **suggest a concrete improvement** or solution. If certain categories have no issues, you may note that. Always be **constructive, concise, and professional** in tone.\n"
    ++ "\n"
    ++ "Organize your review in sections, for example:  \n"
    ++ "1. **Summary of Changes:** Briefly summarize what the code change does.  \n"
    ++ "2. **Issues Found:** For each area (readability, performance, security, style, correctness), list any problems or improvements, each with an explanation. Use bullet points for clarity.  \n"
    ++ "3. **Suggestions for Improvement:** Provide actionable recommendations or code snippets for the issues above (you can combine this with the issues if appropriate, by giving the suggestion right after each issue’s explanation).  \n"
    ++ "4. **Overall Assessment:** Conclude with a short evaluation of the code’s overall quality and whether it meets standards.\n"
    ++ "5. **Grading:** Provide a letter grade (A-F) for the overall code quality regarding the code").data

/-- The user prompt template between the apostrophe and the interpolated
diff slice. -/
def promptPartB : List Char :=
  ("s readiness for production.\n"
    ++ "\n"
    ++ "**User Message (Code Diff Input):**  \n"
    ++ "CODE DIFF:\n"
    ++ "```diff\n").data

/-- The fixed template text preceding `{diff[:10000]}` in `CONTENT_PROMPT`. -/
def promptBeforeDiff : List Char :=
  promptPartA ++ Char.ofNat 39 :: promptPartB

/-- The fixed template text following `{diff[:10000]}` in `CONTENT_PROMPT`:
two spaces, a newline, the closing code fence, a newline, four spaces. -/
def promptAfterDiff : List Char :=
  "  \n```\n    ".data

/-- The `CONTENT_PROMPT` f-string of `get_ai_review`: the fixed template with
`diff[:10000]` (the first 10000 code points of the diff) interpolated. -/
def CONTENT_PROMPT (diff : List Char) : List Char :=
  promptBeforeDiff ++ diff.take 10000 ++ promptAfterDiff

/-- The heading part of the comment template in `post_review_comment`;
`Char.ofNat 129302` is the robot-face emoji of the source. -/
def reviewCommentHeading : List Char :=
  "## ".data ++ Char.ofNat 129302 :: " AI Code Review\n\n".data

/-- The footer part of the comment template in `post_review_comment`. -/
def reviewCommentFooter : List Char :=
  "\n\n---\n*Automated review by AI assistant*".data

/-- The `comment` f-string of `post_review_comment`: heading, the review text
verbatim, then the horizontal rule and attribution footer. -/
def post_review_comment_body (review : List Char) : List Char :=
  reviewCommentHeading ++ review ++ reviewCommentFooter

/-- Recover the review text from a comment body by removing the fixed-length
heading and footer (used to state byte-for-byte reconstructability). -/
def extractReview (c : List Char) : List Char :=
  (c.drop reviewCommentHeading.length).take
    (c.length - reviewCommentHeading.length - reviewCommentFooter.length)

/-- `get_env_var`: look a name up in the process environment; `None` and the
empty string are both rejected (Python `if not value`), exiting with a
diagnostic that names the variable, modelled as `Except.error name`. -/
def get_env_var (env : List Char → Option (List Char)) (name : List Char) :
    Except (List Char) (List Char) :=
  match env name with
  | none => Except.error name
  | some v => if v.isEmpty then Except.error name else Except.ok v

/-- Whether a looked-up environment value is absent or empty, i.e. falsy for
Python `if not value`. -/
def missingVal : Option (List Char) → Bool
  | none => true
  | some v => v.isEmpty

/-- The diagnostic printed by `get_env_var` before `sys.exit(1)`. -/
def errMsg (name : List Char) : List Char :=
  "Error: ".data ++ name ++ " environment variable not set".data

/-- The six required variable names, in the order `main` reads them. -/
def envNames : List (List Char) :=
  ["GITHUB_TOKEN".data, "OPENAI_API_KEY".data, "PR_NUMBER".data,
   "REPO_NAME".data, "BASE_SHA".data, "HEAD_SHA".data]

/-- The sequence of `get_env_var` calls at the top of `main`: the first
missing name aborts the whole sequence. -/
def readEnvs (env : List Char → Option (List Char)) :
    List (List Char) → Except (List Char) (List (List Char))
  | [] => Except.ok []
  | n :: ns =>
    match get_env_var env n with
    | Except.error e => Except.error e
    | Except.ok v =>
      match readEnvs env ns with
      | Except.error e => Except.error e
      | Except.ok vs => Except.ok (v :: vs)

/-- The network calls `main` can issue, in order of appearance: the GitHub
compare GET in `get_pr_diff`, the model call in `get_ai_review`, and the
comment POST in `post_review_comment`. -/
inductive Event : Type
  | fetchDiff : Event
  | aiRequest : Event
  | postComment : Event
deriving DecidableEq

/-- How a run of `main` ends: a controlled `sys.exit(code)` after printing
`msg`, an uncaught `requests` `HTTPError` for the given status, an uncaught
model-API error, the early return on an empty filtered diff, or normal
completion. -/
inductive Outcome : Type
  | exited : Nat → List Char → Outcome
  | httpError : Nat → Outcome
  | aiError : Outcome
  | skippedReview : Outcome
  | completedRun : Outcome
deriving DecidableEq

/-- The external world `main` interacts with: the process environment, the
final status and body of the compare GET, the model call's result, and the
status of the comment POST. -/
structure World : Type where
  env : List Char → Option (List Char)
  compareStatus : Nat
  compareBody : List Char
  aiResult : Except Unit (List Char)
  postStatus : Nat

/-- `requests.Response.raise_for_status` raises `HTTPError` exactly for
status codes in [400, 600): client and server errors, not other
non-2xx codes. -/
def raisesForStatus (s : Nat) : Bool :=
  decide (400 ≤ s) && decide (s < 600)

/-- `main`, replayed over a `World`: read the six variables (exiting on the
first missing one), issue the compare GET and raise on its status if
`raise_for_status` does, filter the body, return early when the stripped
filtered diff is empty, otherwise request the review and post the comment.
Returns the network calls issued and the outcome. -/
def mainRun (w : World) : List Event × Outcome :=
  match readEnvs w.env envNames with
  | Except.error n => ([], Outcome.exited 1 (errMsg n))
  | Except.ok _ =>
    if raisesForStatus w.compareStatus then
      ([Event.fetchDiff], Outcome.httpError w.compareStatus)
    else
      let diff := get_pr_diff_filter w.compareBody
      if (pyStrip diff).isEmpty then
        ([Event.fetchDiff], Outcome.skippedReview)
      else
        match w.aiResult with
        | Except.error _ => ([Event.fetchDiff, Event.aiRequest], Outcome.aiError)
        | Except.ok _ =>
          if raisesForStatus w.postStatus then
            ([Event.fetchDiff, Event.aiRequest, Event.postComment],
              Outcome.httpError w.postStatus)
          else
            ([Event.fetchDiff, Event.aiRequest, Event.postComment],
              Outcome.completedRun)

/-! ### Concrete inputs used to instantiate the theorems -/

/-- A three-section diff: Python file, text file, Python file. -/
def sampleThreeSections : List Char :=
  ("diff --git a/x.py b/x.py\n+a\n"
    ++ "diff --git a/y.txt b/y.txt\n+b\n"
    ++ "diff --git a/z.py b/z.py\n+c").data

/-- A diff whose only sections are Python files. -/
def sampleAllPy : List Char :=
  "diff --git a/x.py b/x.py\n+a\n-b".data

/-- A diff whose single section is a `.txt` file whose name merely contains
`.py` as an inner substring. -/
def sampleDotPyTxt : List Char :=
  "diff --git a/readme.py.txt b/readme.py.txt\n+hello world".data

/-- A diff with leading non-section lines before a Python section. -/
def sampleLeadingJunk : List Char :=
  "junk line\ndiff --git a/x.py b/x.py\n+a".data

/-- A diff with a single non-Python section. -/
def sampleOnlyTxt : List Char :=
  "diff --git a/y.txt b/y.txt\n+b".data

/-- An environment defining every required variable (value `x`). -/
def envAll : List Char → Option (List Char) :=
  fun _ => some ['x']

/-- An environment lacking `GITHUB_TOKEN` but defining everything else. -/
def envNoToken : List Char → Option (List Char) :=
  fun n => if n = "GITHUB_TOKEN".data then none else some ['x']

/-- A world whose compare GET yields status 200 with a text-only diff. -/
def worldTxtOnly : World :=
  ⟨envAll, 200, sampleOnlyTxt, Except.ok "LGTM".data, 201⟩

/-- A world with a missing `GITHUB_TOKEN`. -/
def worldNoToken : World :=
  ⟨envNoToken, 200, sampleAllPy, Except.ok "LGTM".data, 201⟩

/-- A world whose compare GET fails with status 404. -/
def worldFetch404 : World :=
  ⟨envAll, 404, sampleAllPy, Except.ok "LGTM".data, 201⟩

/-- A world whose compare GET yields the non-2xx status 304 (not an error
status for `raise_for_status`) with a Python-file diff body. -/
def worldFetch304 : World :=
  ⟨envAll, 304, sampleAllPy, Except.ok "LGTM".data, 201⟩

/-! ### Properties of the filtering loop -/

theorem filterGo_append (l1 l2 : List (List Char)) (inc : Bool) :
    filterGo (l1 ++ l2) inc = filterGo l1 inc ++ filterGo l2 (incAfter l1 inc) := by
  induction l1 generalizing inc with
  | nil => simp [filterGo, incAfter]
  | cons l ls ih =>
    simp only [List.cons_append, filterGo, incAfter]
    cases hst : stepInc l inc <;> simp [hst, ih]

theorem stepInc_of_not_header {l : List Char} (h : isHeaderLine l = false)
    (inc : Bool) : stepInc l inc = inc := by
  simp [stepInc, h]

theorem incAfter_of_no_header {ls : List (List Char)}
    (h : ∀ l ∈ ls, isHeaderLine l = false) (inc : Bool) :
    incAfter ls inc = inc := by
  induction ls with
  | nil => rfl
  | cons l ls ih =>
    rw [incAfter, stepInc_of_not_header (h l (List.mem_cons_self l ls))]
    exact ih fun x hx => h x (List.mem_cons_of_mem l hx)

theorem filterGo_true_of_no_header {ls : List (List Char)}
    (h : ∀ l ∈ ls, isHeaderLine l = false) : filterGo ls true = ls := by
  induction ls with
  | nil => rfl
  | cons l ls ih =>
    rw [filterGo, stepInc_of_not_header (h l (List.mem_cons_self l ls))]
    simp [ih fun x hx => h x (List.mem_cons_of_mem l hx)]

theorem filterGo_false_of_no_header {ls : List (List Char)}
    (h : ∀ l ∈ ls, isHeaderLine l = false) : filterGo ls false = [] := by
  induction ls with
  | nil => rfl
  | cons l ls ih =>
    rw [filterGo, stepInc_of_not_header (h l (List.mem_cons_self l ls))]
    simp [ih fun x hx => h x (List.mem_cons_of_mem l hx)]

theorem filterGo_false_of_no_matching_header {ls : List (List Char)}
    (h : ∀ l ∈ ls, isHeaderLine l = true → containsSub pyMarker l = false) :
    filterGo ls false = [] := by
  induction ls with
  | nil => rfl
  | cons l ls ih =>
    have hstep : stepInc l false = false := by
      unfold stepInc
      cases hh : isHeaderLine l with
      | false => simp
      | true => simp [h l (List.mem_cons_self l ls) hh]
    rw [filterGo, hstep]
    simp [ih fun x hx hhx => h x (List.mem_cons_of_mem l hx) hhx]

theorem filterGo_true_of_all_matching {ls : List (List Char)}
    (h : ∀ l ∈ ls, isHeaderLine l = true → containsSub pyMarker l = true) :
    filterGo ls true = ls := by
  induction ls with
  | nil => rfl
  | cons l ls ih =>
    have hstep : stepInc l true = true := by
      unfold stepInc
      cases hh : isHeaderLine l with
      | false => simp
      | true => simp [h l (List.mem_cons_self l ls) hh]
    rw [filterGo, hstep]
    simp [ih fun x hx hhx => h x (List.mem_cons_of_mem l hx) hhx]

theorem filterGo_sublist (ls : List (List Char)) (inc : Bool) :
    List.Sublist (filterGo ls inc) ls := by
  induction ls generalizing inc with
  | nil => simp [filterGo]
  | cons l ls ih =>
    rw [filterGo]
    cases hst : stepInc l inc with
    | false => simpa using List.Sublist.cons l (ih false)
    | true => simpa using List.Sublist.cons₂ l (ih true)

theorem filterGo_false_head {ls : List (List Char)} {l : List Char}
    {rest : List (List Char)} (h : filterGo ls false = l :: rest) :
    isHeaderLine l = true ∧ containsSub pyMarker l = true := by
  induction ls with
  | nil => simp [filterGo] at h
  | cons x xs ih =>
    rw [filterGo] at h
    cases hst : stepInc x false with
    | false =>
      rw [hst] at h
      simp only [Bool.false_eq_true, if_false] at h
      exact ih h
    | true =>
      rw [hst] at h
      simp only [if_true] at h
      have hx : x = l := (List.cons_eq_cons.mp h).1
      have hh : isHeaderLine x = true ∧ containsSub pyMarker x = true := by
        unfold stepInc at hst
        cases hhead : isHeaderLine x with
        | false => rw [hhead] at hst; simp at hst
        | true =>
          rw [hhead] at hst
          simp only [if_true] at hst
          exact ⟨rfl, hst⟩
      exact hx ▸ hh

/-! ### Properties of splitting and joining on newlines -/

theorem splitOnNl_ne_nil (s : List Char) : splitOnNl s ≠ [] := by
  cases s with
  | nil => simp [splitOnNl]
  | cons c cs =>
    rw [splitOnNl]
    by_cases h : c = '\n'
    · simp [h]
    · simp only [if_neg h]
      cases hs : splitOnNl cs <;> simp

theorem joinNl_splitOnNl (s : List Char) : joinNl (splitOnNl s) = s := by
  induction s with
  | nil => rfl
  | cons c cs ih =>
    obtain ⟨l, ls, hls⟩ : ∃ l ls, splitOnNl cs = l :: ls := by
      cases hs : splitOnNl cs with
      | nil => exact absurd hs (splitOnNl_ne_nil cs)
      | cons l ls => exact ⟨l, ls, rfl⟩
    rw [hls] at ih
    rw [splitOnNl]
    by_cases h : c = '\n'
    · subst h
      rw [if_pos rfl, hls]
      show joinNl ([] :: l :: ls) = '\n' :: cs
      rw [joinNl]
      simpa using ih
    · rw [if_neg h, hls]
      cases ls with
      | nil =>
        rw [joinNl] at ih
        show joinNl [c :: l] = c :: cs
        rw [joinNl, ih]
      | cons l2 ls2 =>
        rw [joinNl] at ih
        show joinNl ((c :: l) :: l2 :: ls2) = c :: cs
        rw [joinNl]
        simpa using ih

theorem no_nl_of_mem_splitOnNl {s l : List Char} (h : l ∈ splitOnNl s) :
    ∀ c ∈ l, ¬(c = '\n') := by
  induction s generalizing l with
  | nil =>
    simp only [splitOnNl, List.mem_singleton] at h
    subst h
    simp
  | cons c cs ih =>
    rw [splitOnNl] at h
    by_cases hc : c = '\n'
    · rw [if_pos hc] at h
      rcases List.mem_cons.mp h with h1 | h2
      · subst h1; simp
      · exact ih h2
    · rw [if_neg hc] at h
      cases hs : splitOnNl cs with
      | nil => exact absurd hs (splitOnNl_ne_nil cs)
      | cons l0 ls0 =>
        rw [hs] at h
        rcases List.mem_cons.mp h with h1 | h2
        · subst h1
          intro x hx
          rcases List.mem_cons.mp hx with rfl | hx2
          · exact hc
          · exact ih (hs ▸ List.mem_cons_self l0 ls0) x hx2
        · exact ih (hs ▸ List.mem_cons_of_mem l0 h2)

/-! ### Properties of takeWhile, dropWhile and the Python strip -/

theorem takeWhile_eq_self_of_all {p : Char → Bool} {l : List Char}
    (h : ∀ c ∈ l, p c = true) : l.takeWhile p = l := by
  induction l with
  | nil => rfl
  | cons c cs ih =>
    rw [List.takeWhile_cons, h c (List.mem_cons_self c cs)]
    simpa using ih fun x hx => h x (List.mem_cons_of_mem c hx)

theorem takeWhile_append_cons {p : Char → Bool} {l : List Char} {x : Char}
    {ys : List Char} (h : ∀ c ∈ l, p c = true) (hx : p x = false) :
    List.takeWhile p (l ++ x :: ys) = l := by
  induction l with
  | nil => simp [List.takeWhile_cons, hx]
  | cons c cs ih =>
    simp only [List.cons_append, List.takeWhile_cons,
      h c (List.mem_cons_self c cs), if_true]
    simpa using ih fun a ha => h a (List.mem_cons_of_mem c ha)

theorem dropWhile_ne_nil_of_mem {p : Char → Bool} {l : List Char} {x : Char}
    (hx : x ∈ l) (hpx : p x = false) : l.dropWhile p ≠ [] := by
  induction l with
  | nil => simp at hx
  | cons c cs ih =>
    rw [List.dropWhile_cons]
    by_cases hc : p c = true
    · rcases List.mem_cons.mp hx with rfl | hmem
      · rw [hpx] at hc
        exact absurd hc (by simp)
      · simp only [hc, if_true]
        exact ih hmem
    · simp only [Bool.not_eq_true] at hc
      simp [hc]

theorem pyStrip_ne_nil_of_head {c : Char} {t : List Char}
    (hc : isSpaceChar c = false) : pyStrip (c :: t) ≠ [] := by
  unfold pyStrip
  have h1 : (c :: t).dropWhile isSpaceChar = c :: t := by
    rw [List.dropWhile_cons, hc]
    simp
  rw [h1]
  intro hcon
  have h2 : (c :: t).reverse.dropWhile isSpaceChar ≠ [] :=
    dropWhile_ne_nil_of_mem (by simp) hc
  exact h2 (by simpa using hcon)

/-! ### Properties of environment reading -/

theorem get_env_var_of_missing {env : List Char → Option (List Char)}
    {n : List Char} (h : missingVal (env n) = true) :
    get_env_var env n = Except.error n := by
  unfold get_env_var
  cases he : env n with
  | none => rfl
  | some v =>
    rw [he] at h
    simp only [missingVal] at h
    simp [h]

theorem get_env_var_of_present {env : List Char → Option (List Char)}
    {n : List Char} (h : missingVal (env n) = false) :
    ∃ v, get_env_var env n = Except.ok v := by
  unfold get_env_var
  cases he : env n with
  | none =>
    rw [he] at h
    simp [missingVal] at h
  | some v =>
    rw [he] at h
    simp only [missingVal] at h
    exact ⟨v, by simp [h]⟩

theorem readEnvs_ok {env : List Char → Option (List Char)}
    {ns : List (List Char)} (h : ∀ n ∈ ns, missingVal (env n) = false) :
    ∃ vs, readEnvs env ns = Except.ok vs := by
  induction ns with
  | nil => exact ⟨[], rfl⟩
  | cons n ns ih =>
    obtain ⟨v, hv⟩ := get_env_var_of_present (h n (List.mem_cons_self n ns))
    obtain ⟨vs, hvs⟩ := ih fun x hx => h x (List.mem_cons_of_mem n hx)
    exact ⟨v :: vs, by rw [readEnvs, hv, hvs]⟩

theorem readEnvs_error {env : List Char → Option (List Char)}
    {ns : List (List Char)} (h : ∃ n ∈ ns, missingVal (env n) = true) :
    ∃ n, n ∈ ns ∧ missingVal (env n) = true ∧
      readEnvs env ns = Except.error n := by
  induction ns with
  | nil => simp at h
  | cons n ns ih =>
    by_cases hn : missingVal (env n) = true
    · exact ⟨n, List.mem_cons_self n ns, hn,
        by rw [readEnvs, get_env_var_of_missing hn]⟩
    · have hn' : missingVal (env n) = false := by
        simpa using hn
      obtain ⟨v, hv⟩ := get_env_var_of_present hn'
      have hrest : ∃ m ∈ ns, missingVal (env m) = true := by
        obtain ⟨m, hm, hmv⟩ := h
        rcases List.mem_cons.mp hm with rfl | hm2
        · exact absurd hmv hn
        · exact ⟨m, hm2, hmv⟩
      obtain ⟨m, hm, hmv, hrec⟩ := ih hrest
      exact ⟨m, List.mem_cons_of_mem n hm, hmv,
        by rw [readEnvs, hv, hrec]⟩

/-! ### The claims -/

/-- Claim C4: for every filtered diff longer than the 10000-character
truncation limit, the diff text embedded into `CONTENT_PROMPT` is exactly the
first 10000 characters of the diff: the prompt built from `diff` coincides
with the prompt built from its length-10000 prefix, and that slice is a
prefix of `diff` of length exactly 10000, the excess silently dropped. -/
theorem claim_C4_prompt_truncation (diff : List Char)
    (h : 10000 < diff.length) :
    CONTENT_PROMPT diff = CONTENT_PROMPT (diff.take 10000) ∧
    (diff.take 10000).length = 10000 ∧
    List.IsPrefix (diff.take 10000) diff := by
  refine ⟨?_, ?_, ⟨diff.drop 10000, List.take_append_drop _ _⟩⟩
  · unfold CONTENT_PROMPT
    rw [List.take_take]
    simp
  · rw [List.length_take]
    omega

/-- Witness for C4 at a concrete 10001-character diff. -/
theorem claim_C4_prompt_truncation_witness :
    10000 < (List.replicate 10001 'a' : List Char).length ∧
    (CONTENT_PROMPT (List.replicate 10001 'a')
        = CONTENT_PROMPT ((List.replicate 10001 'a' : List Char).take 10000) ∧
      ((List.replicate 10001 'a' : List Char).take 10000).length = 10000 ∧
      List.IsPrefix ((List.replicate 10001 'a' : List Char).take 10000)
        (List.replicate 10001 'a')) :=
  ⟨by rw [List.length_replicate]; omega, claim_C4_prompt_truncation
    (List.replicate 10001 'a') (by rw [List.length_replicate]; omega)⟩

/-- Claim C5: for every review text, the posted comment body is the fixed
template applied to it - the fixed heading, the review verbatim, the fixed
horizontal-rule-and-attribution footer - and the review text is recoverable
byte for byte from the body by stripping the fixed-length heading and
footer. -/
theorem claim_C5_comment_template (review : List Char) :
    post_review_comment_body review
      = reviewCommentHeading ++ review ++ reviewCommentFooter ∧
    extractReview (post_review_comment_body review) = review := by
  refine ⟨rfl, ?_⟩
  unfold extractReview post_review_comment_body
  rw [List.append_assoc, List.drop_left]
  have hlen : (reviewCommentHeading ++ (review ++ reviewCommentFooter)).length
      - reviewCommentHeading.length - reviewCommentFooter.length
      = review.length := by
    simp only [List.length_append]
    omega
  rw [hlen, List.take_left]

/-- Claim C8: for every input diff, the filter's output line sequence is a
subsequence of the input's line sequence - whole lines, contents unmodified,
original relative order preserved - and `get_pr_diff_filter` returns exactly
those lines rejoined with newlines. -/
theorem claim_C8_output_lines_subsequence (diff : List Char) :
    List.Sublist (filterGo (splitOnNl diff) false) (splitOnNl diff) ∧
    get_pr_diff_filter diff = joinNl (filterGo (splitOnNl diff) false) :=
  ⟨filterGo_sublist (splitOnNl diff) false, rfl⟩

/-- Claim C9: the inclusion test is a raw substring test on the full header
line: a diff whose only section is for the non-Python file
`readme.py.txt` - its header line contains `.py` inside a path component but
does not end in `.py` - is retained in full by the filter. -/
theorem claim_C9_substring_false_inclusion :
    isHeaderLine (firstLine sampleDotPyTxt) = true ∧
    containsSub pyMarker (firstLine sampleDotPyTxt) = true ∧
    listEndsWith (firstLine sampleDotPyTxt) pyMarker = false ∧
    get_pr_diff_filter sampleDotPyTxt = sampleDotPyTxt := by
  decide

/-- Claim C7: the filter is the identity on diffs consisting only of
matching sections: when the diff's first line is a `diff --git` header and
every `diff --git` header line in it contains `.py`, re-filtering returns the
input unchanged - in particular the filter is idempotent on its own
matching-only outputs. -/
theorem claim_C7_idempotent_on_matching (diff l : List Char)
    (ls : List (List Char)) (hsplit : splitOnNl diff = l :: ls)
    (hhead : isHeaderLine l = true)
    (hall : ∀ m ∈ splitOnNl diff, isHeaderLine m = true →
      containsSub pyMarker m = true) :
    get_pr_diff_filter diff = diff := by
  have hmatch : containsSub pyMarker l = true :=
    hall l (hsplit ▸ List.mem_cons_self l ls) hhead
  have hstep : stepInc l false = true := by
    simp [stepInc, hhead, hmatch]
  have hrest : filterGo ls true = ls :=
    filterGo_true_of_all_matching fun m hm hh =>
      hall m (hsplit ▸ List.mem_cons_of_mem l hm) hh
  have hjoin := joinNl_splitOnNl diff
  rw [hsplit] at hjoin
  unfold get_pr_diff_filter
  rw [hsplit, filterGo, hstep]
  simpa [hrest] using hjoin

/-- Witness for C7 at a concrete all-Python diff. -/
theorem claim_C7_idempotent_on_matching_witness :
    get_pr_diff_filter sampleAllPy = sampleAllPy :=
  claim_C7_idempotent_on_matching sampleAllPy
    "diff --git a/x.py b/x.py".data ["+a".data, "-b".data]
    (by decide) (by decide) (by decide)

/-- Claim C1: on a diff made of three sections headed
`diff --git a/x.py b/x.py`, `diff --git a/y.txt b/y.txt` and
`diff --git a/z.py b/z.py` (section bodies contain no `diff --git` line),
the filter with marker `.py` returns exactly the lines of the first and
third sections in their original order; every line of the second section is
dropped. -/
theorem claim_C1_three_sections (diff : List Char)
    (b1 b2 b3 : List (List Char))
    (hsplit : splitOnNl diff
      = ("diff --git a/x.py b/x.py".data :: b1)
        ++ (("diff --git a/y.txt b/y.txt".data :: b2)
          ++ ("diff --git a/z.py b/z.py".data :: b3)))
    (hb1 : ∀ l ∈ b1, isHeaderLine l = false)
    (hb2 : ∀ l ∈ b2, isHeaderLine l = false)
    (hb3 : ∀ l ∈ b3, isHeaderLine l = false) :
    get_pr_diff_filter diff
      = joinNl (("diff --git a/x.py b/x.py".data :: b1)
        ++ ("diff --git a/z.py b/z.py".data :: b3)) := by
  have hxh : stepInc ("diff --git a/x.py b/x.py".data) false = true := by
    decide
  have hyh : stepInc ("diff --git a/y.txt b/y.txt".data) true = false := by
    decide
  have hzh : stepInc ("diff --git a/z.py b/z.py".data) false = true := by
    decide
  have e1 : filterGo ("diff --git a/x.py b/x.py".data :: b1) false
      = "diff --git a/x.py b/x.py".data :: b1 := by
    rw [filterGo, hxh]
    simp [filterGo_true_of_no_header hb1]
  have e2 : incAfter ("diff --git a/x.py b/x.py".data :: b1) false = true := by
    rw [incAfter, hxh, incAfter_of_no_header hb1]
  have e3 : filterGo ("diff --git a/y.txt b/y.txt".data :: b2) true = [] := by
    rw [filterGo, hyh]
    simp [filterGo_false_of_no_header hb2]
  have e4 : incAfter ("diff --git a/y.txt b/y.txt".data :: b2) true
      = false := by
    rw [incAfter, hyh, incAfter_of_no_header hb2]
  have e5 : filterGo ("diff --git a/z.py b/z.py".data :: b3) false
      = "diff --git a/z.py b/z.py".data :: b3 := by
    rw [filterGo, hzh]
    simp [filterGo_true_of_no_header hb3]
  unfold get_pr_diff_filter
  rw [hsplit, filterGo_append, e1, e2, filterGo_append, e3, e4, e5]
  simp

/-- Witness for C1 at a concrete three-section diff. -/
theorem claim_C1_three_sections_witness :
    get_pr_diff_filter sampleThreeSections
      = joinNl (("diff --git a/x.py b/x.py".data :: ["+a".data])
        ++ ("diff --git a/z.py b/z.py".data :: ["+c".data])) :=
  claim_C1_three_sections sampleThreeSections
    ["+a".data] ["+b".data] ["+c".data]
    (by decide) (by decide) (by decide) (by decide)

/-- Claim C2: when the fetched diff is empty or contains no `diff --git`
header with `.py` in it, the filter returns the empty string, and `main`
returns early after the fetch: neither the review request nor the comment
post is issued. -/
theorem claim_C2_empty_filter_skips (w : World)
    (henv : ∀ n ∈ envNames, missingVal (w.env n) = false)
    (hstatus : raisesForStatus w.compareStatus = false)
    (hnomatch : ∀ l ∈ splitOnNl w.compareBody, isHeaderLine l = true →
      containsSub pyMarker l = false) :
    get_pr_diff_filter w.compareBody = [] ∧
    mainRun w = ([Event.fetchDiff], Outcome.skippedReview) := by
  have hfil : get_pr_diff_filter w.compareBody = [] := by
    unfold get_pr_diff_filter
    rw [filterGo_false_of_no_matching_header hnomatch]
    rfl
  refine ⟨hfil, ?_⟩
  obtain ⟨vs, hvs⟩ := readEnvs_ok henv
  unfold mainRun
  rw [hvs, hstatus]
  simp [hfil, pyStrip]

/-- Witness for C2 at a world whose diff has only a `.txt` section. -/
theorem claim_C2_empty_filter_skips_witness :
    get_pr_diff_filter worldTxtOnly.compareBody = [] ∧
    mainRun worldTxtOnly = ([Event.fetchDiff], Outcome.skippedReview) :=
  claim_C2_empty_filter_skips worldTxtOnly
    (by decide) (by decide) (by decide)

/-- Claim C3: when at least one of the six required environment variables is
absent or empty, `main` exits with status 1 printing a diagnostic naming a
missing variable, before any network call is issued (the event list is
empty). -/
theorem claim_C3_missing_env_exits (w : World)
    (h : ∃ n ∈ envNames, missingVal (w.env n) = true) :
    ∃ n, n ∈ envNames ∧ missingVal (w.env n) = true ∧
      mainRun w = ([], Outcome.exited 1 (errMsg n)) := by
  obtain ⟨n, hmem, hmiss, hrec⟩ := readEnvs_error h
  refine ⟨n, hmem, hmiss, ?_⟩
  unfold mainRun
  rw [hrec]

/-- Witness for C3 at a world lacking `GITHUB_TOKEN`. -/
theorem claim_C3_missing_env_exits_witness :
    (∃ n ∈ envNames, missingVal (worldNoToken.env n) = true) ∧
    ∃ n, n ∈ envNames ∧ missingVal (worldNoToken.env n) = true ∧
      mainRun worldNoToken = ([], Outcome.exited 1 (errMsg n)) :=
  ⟨⟨"GITHUB_TOKEN".data, by decide, by decide⟩,
    claim_C3_missing_env_exits worldNoToken
      ⟨"GITHUB_TOKEN".data, by decide, by decide⟩⟩

/-- Counterexample to C6 as stated: status 304 is not 2xx, yet
`raise_for_status` does not raise for it, so with a 304 compare response and
a Python-file body the run does not abort - it proceeds all the way to the
comment-posting step and completes. -/
theorem claim_C6_counterexample :
    ¬(200 ≤ worldFetch304.compareStatus ∧ worldFetch304.compareStatus < 300) ∧
    mainRun worldFetch304
      = ([Event.fetchDiff, Event.aiRequest, Event.postComment],
          Outcome.completedRun) := by
  decide

/-- Claim C6 (amended: `non-2xx` tightened to the 4xx/5xx statuses for which
`requests.Response.raise_for_status` raises): when the diff-fetch call
returns a 4xx or 5xx status, the run aborts with the propagated HTTP error
after the fetch alone - neither the review request nor the comment post is
ever reached. -/
theorem claim_C6_fetch_error_aborts (w : World)
    (henv : ∀ n ∈ envNames, missingVal (w.env n) = false)
    (h4 : 400 ≤ w.compareStatus) (h6 : w.compareStatus < 600) :
    mainRun w = ([Event.fetchDiff], Outcome.httpError w.compareStatus) ∧
    Event.postComment ∉ (mainRun w).1 ∧
    Event.aiRequest ∉ (mainRun w).1 := by
  have hr : raisesForStatus w.compareStatus = true := by
    simp [raisesForStatus, h4, h6]
  obtain ⟨vs, hvs⟩ := readEnvs_ok henv
  have hmain : mainRun w
      = ([Event.fetchDiff], Outcome.httpError w.compareStatus) := by
    unfold mainRun
    rw [hvs, hr]
    simp
  refine ⟨hmain, ?_, ?_⟩ <;> rw [hmain] <;> simp

/-- Witness for the amended C6 at a world whose fetch returns 404. -/
theorem claim_C6_fetch_error_aborts_witness :
    mainRun worldFetch404 = ([Event.fetchDiff], Outcome.httpError 404) ∧
    Event.postComment ∉ (mainRun worldFetch404).1 ∧
    Event.aiRequest ∉ (mainRun worldFetch404).1 :=
  claim_C6_fetch_error_aborts worldFetch404
    (by decide) (by decide) (by decide)

/-- Claim C10: whenever the filter's output is non-empty its first line is a
`diff --git` header containing `.py` (lines preceding the first matching
header are dropped), so the output is never a non-empty whitespace-only
string: `main`'s skip test on the stripped output is equivalent to testing
emptiness of the output itself. -/
theorem claim_C10_nonempty_output_headed (diff : List Char) :
    (get_pr_diff_filter diff ≠ [] →
      isHeaderLine (firstLine (get_pr_diff_filter diff)) = true ∧
      containsSub pyMarker (firstLine (get_pr_diff_filter diff)) = true) ∧
    (pyStrip (get_pr_diff_filter diff)).isEmpty
      = (get_pr_diff_filter diff).isEmpty := by
  cases hout : filterGo (splitOnNl diff) false with
  | nil =>
    have hempty : get_pr_diff_filter diff = [] := by
      unfold get_pr_diff_filter
      rw [hout]
      rfl
    exact ⟨fun hne => absurd hempty hne, by rw [hempty]; rfl⟩
  | cons l rest =>
    obtain ⟨hhead, hmatch⟩ := filterGo_false_head hout
    obtain ⟨t, rfl⟩ : ∃ t, l = 'd' :: t := by
      cases l with
      | nil => simp [isHeaderLine, listStartsWith, diffGitMarker] at hhead
      | cons c cs =>
        have hd : diffGitMarker = 'd' :: "iff --git".data := rfl
        rw [isHeaderLine, hd, listStartsWith] at hhead
        have hc : c = 'd' := eq_of_beq ((Bool.and_eq_true _ _).mp hhead).1
        exact ⟨cs, by rw [hc]⟩
    have hmem : ('d' :: t) ∈ splitOnNl diff :=
      (filterGo_sublist (splitOnNl diff) false).subset
        (hout ▸ List.mem_cons_self _ _)
    have hno : ∀ c ∈ ('d' :: t), ¬(c = '\n') := no_nl_of_mem_splitOnNl hmem
    have hstr : get_pr_diff_filter diff = joinNl (('d' :: t) :: rest) := by
      unfold get_pr_diff_filter
      rw [hout]
    have hfl : firstLine (get_pr_diff_filter diff) = 'd' :: t := by
      rw [hstr]
      cases rest with
      | nil =>
        show firstLine ('d' :: t) = 'd' :: t
        unfold firstLine
        exact takeWhile_eq_self_of_all fun c hc => by
          simpa using hno c hc
      | cons r rs =>
        show firstLine (('d' :: t) ++ '\n' :: joinNl (r :: rs)) = 'd' :: t
        unfold firstLine
        exact takeWhile_append_cons
          (fun c hc => by simpa using hno c hc) (by simp)
    obtain ⟨u, hu⟩ : ∃ u, get_pr_diff_filter diff = 'd' :: u := by
      rw [hstr]
      cases rest with
      | nil => exact ⟨t, rfl⟩
      | cons r rs =>
        refine ⟨t ++ '\n' :: joinNl (r :: rs), ?_⟩
        rw [joinNl]
        rfl
    constructor
    · intro _
      rw [hfl]
      exact ⟨hhead, hmatch⟩
    · rw [hu]
      have h2 : (pyStrip ('d' :: u)).isEmpty = false := by
        have hne := pyStrip_ne_nil_of_head (c := 'd') (t := u) (by decide)
        cases hps : pyStrip ('d' :: u) with
        | nil => exact absurd hps hne
        | cons a b => rfl
      rw [h2]
      rfl

/-- Witness for C10 at a diff with junk lines before the Python header. -/
theorem claim_C10_nonempty_output_headed_witness :
    isHeaderLine (firstLine (get_pr_diff_filter sampleLeadingJunk)) = true ∧
    containsSub pyMarker (firstLine (get_pr_diff_filter sampleLeadingJunk))
      = true :=
  (claim_C10_nonempty_output_headed sampleLeadingJunk).1 (by decide)

end ReviewPr
